import Mathlib

/-!
# Verification of the ROCr debug-agent diagnostic core

A shallow embedding, in Lean 4, of the two source files of the repository:

* `src/HSAHandleMemoryFault.cpp` — fault-wave aggregation (`FindFaultyWaves`)
  and the memory-fault report line (`PrintVMFaultInfo`);
* `src/code_object.cpp` — code-object acquisition (`open`), the symbol index
  (`load_symbol_map` / `find_symbol`), the debug-info index
  (`load_debug_info`), and the disassembly window selection (`disassemble`).

Linked lists of the runtime (queues, waves) are modelled as Lean `List`s;
`std::map` is modelled as an association list with unique keys together with
explicit "greatest key ≤ x" lookups (the only ordered-map operation the code
uses); machine integers are `Nat` with explicit `% 2 ^ 64` where overflow can
occur.  External collaborators (libelf, libdw, dbgapi memory reads, the file
system) are abstracted as explicit environment parameters; they are not code
of this repository.
-/

set_option linter.unusedVariables false

namespace RocrDebugAgent

/-! ## Fault-wave aggregation (`src/HSAHandleMemoryFault.cpp`)

`FindFaultyWaves` walks, for one agent, the linked list of queues and for
each queue its linked list of wave snapshots.  A wave whose trap-status
register satisfies `SQ_WAVE_TRAPSTS_XNACK_ERROR` gets its program counter
advanced by `0x8`, its queue's status set to `QUEUE_STATUS_FAILURE`, and is
inserted into a `std::map` keyed by the advanced pc: a first occurrence
stores `(1, wave)`, later occurrences only increment the count.

The XNACK-error test is a macro from a header that only consumes the raw
`trapsts` register value; it is abstracted as a boolean predicate
`xnackErr : Nat → Bool` on that value. -/

/-- Wave registers (the fields of `regs` that the scan touches or must
preserve): the program counter, the trap-status register, and a stand-in
for every remaining captured register. -/
structure WaveRegs where
  pc : Nat
  trapsts : Nat
  otherRegs : Nat
  deriving Repr, DecidableEq

/-- One wave snapshot (`WaveStateInfo`). -/
structure WaveStateInfo where
  regs : WaveRegs
  deriving Repr, DecidableEq

/-- Queue status; the scan only ever writes `QUEUE_STATUS_FAILURE`. -/
inductive QueueStatus where
  | QUEUE_STATUS_ACTIVE
  | QUEUE_STATUS_FAILURE
  deriving Repr, DecidableEq

/-- One queue (`QueueInfo`): its status and its wave list. -/
structure QueueInfo where
  queueStatus : QueueStatus
  waves : List WaveStateInfo
  deriving Repr, DecidableEq

/-- Agent support status; `FindFaultyWaves` bails out early on an
unsupported ISA. -/
inductive AgentStatus where
  | AGENT_STATUS_ACTIVE
  | AGENT_STATUS_UNSUPPORTED
  deriving Repr, DecidableEq

/-- One agent (`GPUAgentInfo`): its support status and its queue list. -/
structure GPUAgentInfo where
  agentStatus : AgentStatus
  queues : List QueueInfo
  deriving Repr, DecidableEq

/-- `pWave->regs.pc += 0x8` on a 64-bit register. -/
def advancePC (pc : Nat) : Nat := (pc + 8) % 2 ^ 64

/-- The wave as it looks after its pc has been advanced past the faulting
instruction. -/
def advanceWave (w : WaveStateInfo) : WaveStateInfo :=
  { w with regs := { w.regs with pc := advancePC w.regs.pc } }

/-- The aggregation map `std::map<uint64_t, std::pair<uint64_t, WaveStateInfo*>>`,
modelled as an association list of `(advanced pc, count, representative)`
entries with unique keys, in insertion order. -/
abbrev FaultMap := List (Nat × Nat × WaveStateInfo)

/-- `faultyWaves.find(pc)` — lookup by key. -/
def faultMapFind (m : FaultMap) (k : Nat) : Option (Nat × WaveStateInfo) :=
  match m with
  | [] => none
  | (k', c, w) :: rest => if k' = k then some (c, w) else faultMapFind rest k

/-- The map update the scan performs for one faulty wave: an existing entry
for the key has its count incremented (`it->second.first ++`), a missing one
is inserted as `(1, wave)`. -/
def faultMapUpdate (m : FaultMap) (k : Nat) (w : WaveStateInfo) : FaultMap :=
  match m with
  | [] => [(k, 1, w)]
  | (k', c, w') :: rest =>
    if k' = k then (k', c + 1, w') :: rest
    else (k', c, w') :: faultMapUpdate rest k w

/-- Process one wave: the body of the inner `while` loop. -/
def processWave (xnackErr : Nat → Bool) (w : WaveStateInfo) (m : FaultMap)
    (qs : QueueStatus) : WaveStateInfo × FaultMap × QueueStatus :=
  if xnackErr w.regs.trapsts then
    let w' := advanceWave w
    (w', faultMapUpdate m w'.regs.pc w', QueueStatus.QUEUE_STATUS_FAILURE)
  else
    (w, m, qs)

/-- Process a queue's wave list in traversal order, threading the map and the
queue status. -/
def processWaveList (xnackErr : Nat → Bool) :
    List WaveStateInfo → FaultMap → QueueStatus →
    List WaveStateInfo × FaultMap × QueueStatus
  | [], m, qs => ([], m, qs)
  | w :: ws, m, qs =>
    let r := processWave xnackErr w m qs
    let rest := processWaveList xnackErr ws r.2.1 r.2.2
    (r.1 :: rest.1, rest.2.1, rest.2.2)

/-- Process the queue list in traversal order, threading the map. -/
def processQueueList (xnackErr : Nat → Bool) :
    List QueueInfo → FaultMap → List QueueInfo × FaultMap
  | [], m => ([], m)
  | q :: qs, m =>
    let r := processWaveList xnackErr q.waves m q.queueStatus
    let rest := processQueueList xnackErr qs r.2.1
    ({ q with waves := r.1, queueStatus := r.2.2 } :: rest.1, rest.2)

/-- `FindFaultyWaves`: returns the aggregation map and (since the C++ scan
mutates the store in place) the store as it looks after the scan.  An
unsupported agent is reported and yields an empty map with no mutation. -/
def FindFaultyWaves (xnackErr : Nat → Bool) (a : GPUAgentInfo) :
    FaultMap × GPUAgentInfo :=
  match a.agentStatus with
  | AgentStatus.AGENT_STATUS_UNSUPPORTED => ([], a)
  | AgentStatus.AGENT_STATUS_ACTIVE =>
    let r := processQueueList xnackErr a.queues []
    (r.2, { a with queues := r.1 })

/-- The faulty waves of the store, in traversal order (queues in list order,
waves in list order within each queue), before any mutation. -/
def faultyWaves (xnackErr : Nat → Bool) (a : GPUAgentInfo) :
    List WaveStateInfo :=
  a.queues.flatMap (fun q => q.waves.filter (fun w => xnackErr w.regs.trapsts))

/-- The aggregation key of a wave: its advanced program counter. -/
def keyOf (w : WaveStateInfo) : Nat := advancePC w.regs.pc

/-- One aggregation step, as it acts on the map alone. -/
def upd (m : FaultMap) (w : WaveStateInfo) : FaultMap :=
  faultMapUpdate m (keyOf w) (advanceWave w)

/-- The sum of the per-key occurrence counts of the map. -/
def sumCounts (m : FaultMap) : Nat := (m.map (fun e => e.2.1)).sum

theorem faultMapFind_update_self (m : FaultMap) (k : Nat) (w : WaveStateInfo) :
    faultMapFind (faultMapUpdate m k w) k =
      match faultMapFind m k with
      | some (c, w0) => some (c + 1, w0)
      | none => some (1, w) := by
  induction m with
  | nil => simp [faultMapFind, faultMapUpdate]
  | cons e rest ih =>
    obtain ⟨k', c', w'⟩ := e
    by_cases h : k' = k <;> simp [faultMapFind, faultMapUpdate, h, ih]

theorem faultMapFind_update_ne (m : FaultMap) (k k' : Nat) (w : WaveStateInfo)
    (h : k' ≠ k) : faultMapFind (faultMapUpdate m k w) k' = faultMapFind m k' := by
  induction m with
  | nil => simp [faultMapFind, faultMapUpdate, Ne.symm h]
  | cons e rest ih =>
    obtain ⟨k'', c'', w''⟩ := e
    by_cases h' : k'' = k
    · subst h'
      simp [faultMapFind, faultMapUpdate, Ne.symm h]
    · simp [faultMapFind, faultMapUpdate, h', ih]

theorem faultMapFind_isSome_iff_mem (m : FaultMap) (k : Nat) :
    (faultMapFind m k).isSome ↔ k ∈ m.map (fun e => e.1) := by
  induction m with
  | nil => simp [faultMapFind]
  | cons e rest ih =>
    obtain ⟨k', c', w'⟩ := e
    by_cases h : k' = k
    · subst h
      simp [faultMapFind]
    · simp [faultMapFind, h, Ne.symm h, ih]

theorem keys_update (m : FaultMap) (k : Nat) (w : WaveStateInfo) :
    (faultMapUpdate m k w).map (fun e => e.1) =
      if (faultMapFind m k).isSome then m.map (fun e => e.1)
      else m.map (fun e => e.1) ++ [k] := by
  induction m with
  | nil => simp [faultMapFind, faultMapUpdate]
  | cons e rest ih =>
    obtain ⟨k', c', w'⟩ := e
    by_cases h : k' = k
    · simp [faultMapFind, faultMapUpdate, h, ih]
    · simp only [faultMapFind, faultMapUpdate, h, if_false, ih, List.map_cons]
      split <;> simp

theorem keys_update_nodup (m : FaultMap) (k : Nat) (w : WaveStateInfo)
    (h : (m.map (fun e => e.1)).Nodup) :
    ((faultMapUpdate m k w).map (fun e => e.1)).Nodup := by
  rw [keys_update]
  split
  · exact h
  · next hfind =>
    rw [List.nodup_append]
    refine ⟨h, List.nodup_singleton k, ?_⟩
    intro a ha hb
    simp at hb
    subst hb
    rw [← faultMapFind_isSome_iff_mem] at ha
    simp_all

theorem sumCounts_update (m : FaultMap) (k : Nat) (w : WaveStateInfo) :
    sumCounts (faultMapUpdate m k w) = sumCounts m + 1 := by
  induction m with
  | nil => simp [sumCounts, faultMapUpdate]
  | cons e rest ih =>
    obtain ⟨k', c', w'⟩ := e
    by_cases h : k' = k <;>
      simp [sumCounts, faultMapUpdate, h] at ih ⊢ <;> omega

theorem faultMapFind_mem_of_nodup (m : FaultMap) (k : Nat) (c : Nat)
    (w : WaveStateInfo) (h : (m.map (fun e => e.1)).Nodup) :
    ((k, c, w) ∈ m ↔ faultMapFind m k = some (c, w)) := by
  induction m with
  | nil => simp [faultMapFind]
  | cons e rest ih =>
    obtain ⟨k', c', w'⟩ := e
    simp only [List.map_cons, List.nodup_cons] at h
    by_cases hk : k' = k
    · subst hk
      simp only [faultMapFind, if_pos rfl, List.mem_cons]
      constructor
      · rintro (he | hmem)
        · simp_all
        · exfalso
          exact h.1 (List.mem_map.mpr ⟨(k', c, w), hmem, rfl⟩)
      · rintro he
        left
        simp_all
    · simp [faultMapFind, hk, ih h.2]
      intro h1 h2 h3
      exact absurd h1.symm hk

/-! Facts about folding `upd` over a wave list. -/

theorem foldl_upd_isSome (L : List WaveStateInfo) (m : FaultMap) (k : Nat) :
    (faultMapFind (L.foldl upd m) k).isSome ↔
      (faultMapFind m k).isSome ∨ k ∈ L.map keyOf := by
  induction L generalizing m with
  | nil => simp
  | cons w L ih =>
    rw [List.foldl_cons, ih]
    by_cases h : keyOf w = k
    · subst h
      have hs : (faultMapFind (upd m w) (keyOf w)).isSome := by
        rw [upd, faultMapFind_update_self]
        cases hf : faultMapFind m (keyOf w) with
        | none => simp
        | some p =>
          obtain ⟨c0, w0⟩ := p
          simp
      simp [hs]
    · rw [upd, faultMapFind_update_ne m (keyOf w) k (advanceWave w) (Ne.symm h)]
      simp [Ne.symm h]

theorem foldl_upd_keys_nodup (L : List WaveStateInfo) (m : FaultMap)
    (h : (m.map (fun e => e.1)).Nodup) :
    ((L.foldl upd m).map (fun e => e.1)).Nodup := by
  induction L generalizing m with
  | nil => simpa
  | cons w L ih => exact ih _ (keys_update_nodup _ _ _ h)

theorem foldl_upd_sumCounts (L : List WaveStateInfo) (m : FaultMap) :
    sumCounts (L.foldl upd m) = sumCounts m + L.length := by
  induction L generalizing m with
  | nil => simp
  | cons w L ih =>
    rw [List.foldl_cons, ih]
    simp [upd, sumCounts_update]
    omega

theorem foldl_upd_rep_preserved (L : List WaveStateInfo) (m : FaultMap)
    (k : Nat) (h : (faultMapFind m k).isSome) :
    (faultMapFind (L.foldl upd m) k).map Prod.snd =
      (faultMapFind m k).map Prod.snd := by
  induction L generalizing m with
  | nil => rfl
  | cons w L ih =>
    rw [List.foldl_cons]
    by_cases hk : keyOf w = k
    · subst hk
      rw [ih]
      · cases hf : faultMapFind m (keyOf w) with
        | none => simp [hf] at h
        | some p =>
          obtain ⟨c0, w0⟩ := p
          simp [upd, faultMapFind_update_self, hf]
      · cases hf : faultMapFind m (keyOf w) with
        | none => simp [hf] at h
        | some p =>
          obtain ⟨c0, w0⟩ := p
          simp [upd, faultMapFind_update_self, hf]
    · rw [ih]
      · simp [upd, faultMapFind_update_ne m (keyOf w) k (advanceWave w) (Ne.symm hk)]
      · simpa [upd, faultMapFind_update_ne m (keyOf w) k (advanceWave w) (Ne.symm hk)]

theorem foldl_upd_rep_new (L : List WaveStateInfo) (m : FaultMap) (k : Nat)
    (h : faultMapFind m k = none) :
    (faultMapFind (L.foldl upd m) k).map Prod.snd =
      (L.find? (fun w => keyOf w == k)).map advanceWave := by
  induction L generalizing m with
  | nil => simp [h]
  | cons w L ih =>
    rw [List.foldl_cons]
    by_cases hk : keyOf w = k
    · subst hk
      have hupd : faultMapFind (upd m w) (keyOf w) = some (1, advanceWave w) := by
        simp [upd, faultMapFind_update_self, h]
      rw [foldl_upd_rep_preserved L (upd m w) (keyOf w) (by simp [hupd])]
      simp [hupd, List.find?]
    · have hupd : faultMapFind (upd m w) k = none := by
        rw [upd, faultMapFind_update_ne m (keyOf w) k (advanceWave w) (Ne.symm hk)]
        exact h
      have hb : (keyOf w == k) = false := by simp [hk]
      rw [ih _ hupd]
      simp [List.find?, hb]

/-! Characterizations of the scan itself. -/

theorem processWaveList_waves (x : Nat → Bool) (ws : List WaveStateInfo)
    (m : FaultMap) (qs : QueueStatus) :
    (processWaveList x ws m qs).1 =
      ws.map (fun w => if x w.regs.trapsts then advanceWave w else w) := by
  induction ws generalizing m qs with
  | nil => simp [processWaveList]
  | cons w ws ih =>
    by_cases h : x w.regs.trapsts <;>
      simp [processWaveList, processWave, h, ih]

theorem processWaveList_map (x : Nat → Bool) (ws : List WaveStateInfo)
    (m : FaultMap) (qs : QueueStatus) :
    (processWaveList x ws m qs).2.1 =
      (ws.filter (fun w => x w.regs.trapsts)).foldl upd m := by
  induction ws generalizing m qs with
  | nil => simp [processWaveList]
  | cons w ws ih =>
    by_cases h : x w.regs.trapsts <;>
      simp [processWaveList, processWave, h, ih, upd, keyOf, advanceWave]

theorem processWaveList_status (x : Nat → Bool) (ws : List WaveStateInfo)
    (m : FaultMap) (qs : QueueStatus) :
    (processWaveList x ws m qs).2.2 =
      if ws.any (fun w => x w.regs.trapsts) then
        QueueStatus.QUEUE_STATUS_FAILURE
      else qs := by
  induction ws generalizing m qs with
  | nil => simp [processWaveList]
  | cons w ws ih =>
    by_cases h : x w.regs.trapsts <;>
      simp [processWaveList, processWave, h, ih]

/-- The effect of the scan on one queue, in closed form. -/
def scanQueue (x : Nat → Bool) (q : QueueInfo) : QueueInfo :=
  { q with
    waves := q.waves.map (fun w => if x w.regs.trapsts then advanceWave w else w),
    queueStatus :=
      if q.waves.any (fun w => x w.regs.trapsts) then
        QueueStatus.QUEUE_STATUS_FAILURE
      else q.queueStatus }

theorem processQueueList_queues (x : Nat → Bool) (qs : List QueueInfo)
    (m : FaultMap) :
    (processQueueList x qs m).1 = qs.map (scanQueue x) := by
  induction qs generalizing m with
  | nil => simp [processQueueList]
  | cons q qs ih =>
    simp [processQueueList, ih, scanQueue, processWaveList_waves,
      processWaveList_status]

theorem processQueueList_map (x : Nat → Bool) (qs : List QueueInfo)
    (m : FaultMap) :
    (processQueueList x qs m).2 =
      (qs.flatMap (fun q => q.waves.filter (fun w => x w.regs.trapsts))).foldl
        upd m := by
  induction qs generalizing m with
  | nil => simp [processQueueList]
  | cons q qs ih =>
    simp [processQueueList, ih, processWaveList_map, List.foldl_append]

/-- **C1.** For a supported agent, `FindFaultyWaves` returns a map whose keys
are exactly the distinct advanced (old + 8, mod 2^64) program counters of the
XNACK-faulty waves, whose counts sum to the number of faulty waves, and whose
representative for each key is the advanced form of the first faulty wave
encountered, in traversal order, whose advanced pc equals that key. -/
theorem findFaultyWaves_aggregation (x : Nat → Bool) (a : GPUAgentInfo)
    (h : a.agentStatus = AgentStatus.AGENT_STATUS_ACTIVE) :
    (∀ k, k ∈ (FindFaultyWaves x a).1.map (fun e => e.1) ↔
        k ∈ (faultyWaves x a).map keyOf) ∧
    sumCounts (FindFaultyWaves x a).1 = (faultyWaves x a).length ∧
    (∀ k c w, (k, c, w) ∈ (FindFaultyWaves x a).1 →
        ((faultyWaves x a).find? (fun w0 => keyOf w0 == k)).map advanceWave =
          some w) := by
  have hmap : (FindFaultyWaves x a).1 = (faultyWaves x a).foldl upd [] := by
    simp [FindFaultyWaves, h, processQueueList_map, faultyWaves]
  refine ⟨?_, ?_, ?_⟩
  · intro k
    rw [hmap, ← faultMapFind_isSome_iff_mem, foldl_upd_isSome]
    simp [faultMapFind]
  · rw [hmap, foldl_upd_sumCounts]
    simp [sumCounts]
  · intro k c w hmem
    rw [hmap] at hmem
    have hnodup : (((faultyWaves x a).foldl upd []).map (fun e => e.1)).Nodup :=
      foldl_upd_keys_nodup _ [] (by simp)
    have hfind := (faultMapFind_mem_of_nodup _ k c w hnodup).mp hmem
    have := foldl_upd_rep_new (faultyWaves x a) [] k (by simp [faultMapFind])
    rw [hfind] at this
    simpa using this.symm

/-- Witness for `findFaultyWaves_aggregation`: a two-queue store with two
faulty waves at the same site and one at another. -/
theorem findFaultyWaves_aggregation_witness :
    (∀ k, k ∈ (FindFaultyWaves (fun t => t == 1)
        ⟨AgentStatus.AGENT_STATUS_ACTIVE,
         [⟨QueueStatus.QUEUE_STATUS_ACTIVE, [⟨⟨16, 1, 0⟩⟩, ⟨⟨32, 0, 0⟩⟩]⟩,
          ⟨QueueStatus.QUEUE_STATUS_ACTIVE, [⟨⟨16, 1, 5⟩⟩, ⟨⟨64, 1, 0⟩⟩]⟩]⟩).1.map
            (fun e => e.1) ↔
        k ∈ (faultyWaves (fun t => t == 1)
        ⟨AgentStatus.AGENT_STATUS_ACTIVE,
         [⟨QueueStatus.QUEUE_STATUS_ACTIVE, [⟨⟨16, 1, 0⟩⟩, ⟨⟨32, 0, 0⟩⟩]⟩,
          ⟨QueueStatus.QUEUE_STATUS_ACTIVE, [⟨⟨16, 1, 5⟩⟩, ⟨⟨64, 1, 0⟩⟩]⟩]⟩).map
            keyOf) ∧
    sumCounts (FindFaultyWaves (fun t => t == 1)
        ⟨AgentStatus.AGENT_STATUS_ACTIVE,
         [⟨QueueStatus.QUEUE_STATUS_ACTIVE, [⟨⟨16, 1, 0⟩⟩, ⟨⟨32, 0, 0⟩⟩]⟩,
          ⟨QueueStatus.QUEUE_STATUS_ACTIVE, [⟨⟨16, 1, 5⟩⟩, ⟨⟨64, 1, 0⟩⟩]⟩]⟩).1 =
      (faultyWaves (fun t => t == 1)
        ⟨AgentStatus.AGENT_STATUS_ACTIVE,
         [⟨QueueStatus.QUEUE_STATUS_ACTIVE, [⟨⟨16, 1, 0⟩⟩, ⟨⟨32, 0, 0⟩⟩]⟩,
          ⟨QueueStatus.QUEUE_STATUS_ACTIVE, [⟨⟨16, 1, 5⟩⟩, ⟨⟨64, 1, 0⟩⟩]⟩]⟩).length ∧
    (∀ k c w, (k, c, w) ∈ (FindFaultyWaves (fun t => t == 1)
        ⟨AgentStatus.AGENT_STATUS_ACTIVE,
         [⟨QueueStatus.QUEUE_STATUS_ACTIVE, [⟨⟨16, 1, 0⟩⟩, ⟨⟨32, 0, 0⟩⟩]⟩,
          ⟨QueueStatus.QUEUE_STATUS_ACTIVE, [⟨⟨16, 1, 5⟩⟩, ⟨⟨64, 1, 0⟩⟩]⟩]⟩).1 →
        ((faultyWaves (fun t => t == 1)
        ⟨AgentStatus.AGENT_STATUS_ACTIVE,
         [⟨QueueStatus.QUEUE_STATUS_ACTIVE, [⟨⟨16, 1, 0⟩⟩, ⟨⟨32, 0, 0⟩⟩]⟩,
          ⟨QueueStatus.QUEUE_STATUS_ACTIVE, [⟨⟨16, 1, 5⟩⟩, ⟨⟨64, 1, 0⟩⟩]⟩]⟩).find?
            (fun w0 => keyOf w0 == k)).map advanceWave = some w) :=
  findFaultyWaves_aggregation (fun t => t == 1)
    ⟨AgentStatus.AGENT_STATUS_ACTIVE,
     [⟨QueueStatus.QUEUE_STATUS_ACTIVE, [⟨⟨16, 1, 0⟩⟩, ⟨⟨32, 0, 0⟩⟩]⟩,
      ⟨QueueStatus.QUEUE_STATUS_ACTIVE, [⟨⟨16, 1, 5⟩⟩, ⟨⟨64, 1, 0⟩⟩]⟩]⟩ rfl

/-- **C8.** The scan removes nothing from the store: for a supported agent it
maps each queue in place, advancing the pc of exactly the faulty waves (all
other registers and all non-faulty waves untouched) and setting the failure
flag on exactly the queues that contain a faulty wave; queue and wave list
lengths are preserved. -/
theorem findFaultyWaves_frame (x : Nat → Bool) (a : GPUAgentInfo)
    (h : a.agentStatus = AgentStatus.AGENT_STATUS_ACTIVE) :
    (FindFaultyWaves x a).2 = { a with queues := a.queues.map (scanQueue x) } ∧
    (FindFaultyWaves x a).2.queues.length = a.queues.length ∧
    (∀ q ∈ a.queues, (scanQueue x q).waves.length = q.waves.length) := by
  refine ⟨?_, ?_, ?_⟩
  · simp [FindFaultyWaves, h, processQueueList_queues]
  · simp [FindFaultyWaves, h, processQueueList_queues]
  · intro q _
    simp [scanQueue]

/-- Witness for `findFaultyWaves_frame`. -/
theorem findFaultyWaves_frame_witness :
    (FindFaultyWaves (fun t => t == 1)
        ⟨AgentStatus.AGENT_STATUS_ACTIVE,
         [⟨QueueStatus.QUEUE_STATUS_ACTIVE, [⟨⟨16, 1, 0⟩⟩, ⟨⟨32, 0, 0⟩⟩]⟩]⟩).2 =
      { agentStatus := AgentStatus.AGENT_STATUS_ACTIVE,
        queues := ([⟨QueueStatus.QUEUE_STATUS_ACTIVE,
          [⟨⟨16, 1, 0⟩⟩, ⟨⟨32, 0, 0⟩⟩]⟩] : List QueueInfo).map
            (scanQueue (fun t => t == 1)) } ∧
    (FindFaultyWaves (fun t => t == 1)
        ⟨AgentStatus.AGENT_STATUS_ACTIVE,
         [⟨QueueStatus.QUEUE_STATUS_ACTIVE,
           [⟨⟨16, 1, 0⟩⟩, ⟨⟨32, 0, 0⟩⟩]⟩]⟩).2.queues.length =
      ([⟨QueueStatus.QUEUE_STATUS_ACTIVE,
        [⟨⟨16, 1, 0⟩⟩, ⟨⟨32, 0, 0⟩⟩]⟩] : List QueueInfo).length ∧
    (∀ q ∈ ([⟨QueueStatus.QUEUE_STATUS_ACTIVE,
        [⟨⟨16, 1, 0⟩⟩, ⟨⟨32, 0, 0⟩⟩]⟩] : List QueueInfo),
      (scanQueue (fun t => t == 1) q).waves.length = q.waves.length) :=
  findFaultyWaves_frame (fun t => t == 1)
    ⟨AgentStatus.AGENT_STATUS_ACTIVE,
     [⟨QueueStatus.QUEUE_STATUS_ACTIVE, [⟨⟨16, 1, 0⟩⟩, ⟨⟨32, 0, 0⟩⟩]⟩]⟩ rfl

/-! ## The memory-fault report line (`PrintVMFaultInfo`)

`PrintVMFaultInfo` renders one report line into a `std::stringstream`: a
header with the node id, the faulting page index (`virtualAddress >> 0xC`,
printed in uppercase hex with an `xxx` suffix), and, between parentheses, the
description of each fault-reason bit that is set, each test an independent
`if` on the mask. -/

/-- Uppercase hexadecimal rendering of a 64-bit value, as
`std::hex << std::uppercase` prints it. -/
def toHexUpper (n : Nat) : String :=
  String.mk ((Nat.toDigits 16 n).map Char.toUpper)

/-- The six fault-reason conditionals of the source, in order.  The masks
are `0x1, 0x10, 0x100, 0x1000, 0x10000, 0x100000`. -/
def vmFaultDescriptions (mask : Nat) : String :=
  (if mask &&& 0x00000001 > 0 then "page not present;" else "") ++
  (if mask &&& 0x00000010 > 0 then "write access to a read-only page;" else "") ++
  (if mask &&& 0x00000100 > 0 then "execute access to a non-executable page;" else "") ++
  (if mask &&& 0x00001000 > 0 then "access to host access only;" else "") ++
  (if mask &&& 0x00010000 > 0 then "uncorrectable ECC failure;" else "") ++
  (if mask &&& 0x00100000 > 0 then "can't determine the exact fault address;" else "")

/-- The string `PrintVMFaultInfo` builds for a valid memory-fault event
(node id, faulting virtual address, fault-reason mask). -/
def PrintVMFaultInfo (nodeId virtualAddress faultReasonMask : Nat) : String :=
  "\n" ++
  "Memory access fault at GPU Node: " ++ toString nodeId ++ "\n" ++
  "Address: 0x" ++ toHexUpper (virtualAddress >>> 0xC) ++ "xxx (" ++
  vmFaultDescriptions faultReasonMask ++
  ")\n\n"

/-- The fault-reason bits as the spec states them: bit positions with their
descriptions. -/
def faultReasonTable : List (Nat × String) :=
  [(0, "page not present;"),
   (4, "write access to a read-only page;"),
   (8, "execute access to a non-executable page;"),
   (12, "access to host access only;"),
   (16, "uncorrectable ECC failure;"),
   (20, "can't determine the exact fault address;")]

theorem and_two_pow_pos_iff (m i : Nat) : 0 < m &&& 2 ^ i ↔ m.testBit i := by
  rw [Nat.and_two_pow]
  cases h : m.testBit i <;> simp [h, Nat.pos_pow_of_pos]

/-- **C9.** The report line is exactly: a node header, the page index
(virtual address shifted right by 12 bits) in uppercase hex, and the
concatenation of the descriptions of exactly the set bits 0, 4, 8, 12, 16
and 20 of the fault-reason mask, in order. -/
theorem printVMFaultInfo_correct (nodeId virtualAddress faultReasonMask : Nat) :
    PrintVMFaultInfo nodeId virtualAddress faultReasonMask =
      "\nMemory access fault at GPU Node: " ++ toString nodeId ++ "\n" ++
      "Address: 0x" ++ toHexUpper (virtualAddress / 2 ^ 12) ++ "xxx (" ++
      String.join
        (((faultReasonTable.filter
            (fun p => faultReasonMask.testBit p.1)).map Prod.snd)) ++
      ")\n\n" := by
  have h0 := and_two_pow_pos_iff faultReasonMask 0
  have h4 := and_two_pow_pos_iff faultReasonMask 4
  have h8 := and_two_pow_pos_iff faultReasonMask 8
  have h12 := and_two_pow_pos_iff faultReasonMask 12
  have h16 := and_two_pow_pos_iff faultReasonMask 16
  have h20 := and_two_pow_pos_iff faultReasonMask 20
  norm_num at h0 h4 h8 h12 h16 h20
  rw [PrintVMFaultInfo, vmFaultDescriptions, Nat.shiftRight_eq_div_pow]
  cases hb0 : faultReasonMask.testBit 0 <;>
    cases hb4 : faultReasonMask.testBit 4 <;>
      cases hb8 : faultReasonMask.testBit 8 <;>
        cases hb12 : faultReasonMask.testBit 12 <;>
          cases hb16 : faultReasonMask.testBit 16 <;>
            cases hb20 : faultReasonMask.testBit 20 <;>
              simp_all [faultReasonTable, String.join, List.filter]

/-! ## Symbol index (`src/code_object.cpp`, `load_symbol_map` / `find_symbol`)

`m_symbol_map` is a `std::map<address, (name, size)>`; it is modelled as an
association list with unique keys, and the only ordered lookup the code
performs — `prev(upper_bound(address))`, the entry with the greatest key
`≤ address` — is modelled directly as such.  All 64-bit additions carry an
explicit `% 2 ^ 64`.  Demangling (`abi::__cxa_demangle`, best-effort,
identity on failure) is abstracted as a function parameter. -/

/-- The result record of `find_symbol`. -/
structure symbol_info_t where
  m_name : String
  m_value : Nat
  m_size : Nat
  deriving Repr, DecidableEq

/-- `m_symbol_map`: entries `(address, name, size)` with unique keys. -/
abbrev SymbolMap := List (Nat × String × Nat)

/-- `std::prev(map.upper_bound(a))` when it exists: the entry with the
greatest key `≤ a` (generic in the mapped-to value, since both the symbol
map and the compilation-unit map are queried this way). -/
def mapGreatestLE {β : Type} : List (Nat × β) → Nat → Option (Nat × β)
  | [], _ => none
  | e :: m, a =>
    let rest := mapGreatestLE m a
    if e.1 ≤ a then
      match rest with
      | none => some e
      | some b => if b.1 < e.1 then some e else some b
    else rest

/-- `code_object_t::find_symbol`: greatest key `≤ address`, valid only when
`address < symbol_value + size` (64-bit sum). -/
def find_symbol (demangle : String → String) (m : SymbolMap)
    (address : Nat) : Option symbol_info_t :=
  match mapGreatestLE m address with
  | some (v, name, sz) =>
    if address < (v + sz) % 2 ^ 64 then
      some ⟨demangle name, v, sz⟩
    else none
  | none => none

/-- `GELF_ST_TYPE` value for function symbols. -/
def STT_FUNC : Nat := 2

/-- The undefined-section index. -/
def SHN_UNDEF : Nat := 0

/-- The fields of a `GElf_Sym` the scan reads (the name already resolved
through the string table). -/
structure ElfSym where
  st_value : Nat
  st_size : Nat
  st_name : String
  st_type : Nat
  st_shndx : Nat
  deriving Repr, DecidableEq

/-- Lookup by exact key (what `std::map::emplace` checks). -/
def symMapLookup : SymbolMap → Nat → Option (String × Nat)
  | [], _ => none
  | (k', n, sz) :: rest, k =>
    if k' = k then some (n, sz) else symMapLookup rest k

/-- Replace the value stored at a key (`it->second = ...`). -/
def symMapReplace : SymbolMap → Nat → String × Nat → SymbolMap
  | [], _, _ => []
  | (k', n, sz) :: rest, k, v =>
    if k' = k then (k', v.1, v.2) :: rest
    else (k', n, sz) :: symMapReplace rest k v

/-- The body of the symbol-table scan for one symbol: skip non-function or
undefined symbols; emplace keyed by `m_load_address + st_value`; on a key
collision replace the stored entry only when the new size is strictly
larger. -/
def addSymbol (load : Nat) (m : SymbolMap) (s : ElfSym) : SymbolMap :=
  if s.st_type ≠ STT_FUNC ∨ s.st_shndx = SHN_UNDEF then m
  else
    match symMapLookup m ((load + s.st_value) % 2 ^ 64) with
    | none => m ++ [((load + s.st_value) % 2 ^ 64, s.st_name, s.st_size)]
    | some (_, sz0) =>
      if s.st_size > sz0 then
        symMapReplace m ((load + s.st_value) % 2 ^ 64) (s.st_name, s.st_size)
      else m

/-- `code_object_t::load_symbol_map`: fold the scan over the (concatenated)
symbol tables of the image. -/
def load_symbol_map (load : Nat) (syms : List ElfSym) : SymbolMap :=
  syms.foldl (addSymbol load) []

theorem mapGreatestLE_none {β : Type} (m : List (Nat × β)) (a : Nat)
    (h : mapGreatestLE m a = none) : ∀ e ∈ m, ¬e.1 ≤ a := by
  induction m with
  | nil => simp
  | cons e0 m ih =>
    simp only [mapGreatestLE] at h
    by_cases h0 : e0.1 ≤ a
    · simp only [h0, if_true] at h
      cases hr : mapGreatestLE m a with
      | none => rw [hr] at h; simp at h
      | some b =>
        rw [hr] at h
        by_cases hlt : b.1 < e0.1 <;> simp [hlt] at h
    · simp only [h0, if_false] at h
      intro e he
      rcases List.mem_cons.mp he with he | he
      · subst he; exact h0
      · exact ih h e he

theorem mapGreatestLE_spec {β : Type} (m : List (Nat × β)) (a : Nat) :
    ∀ e, mapGreatestLE m a = some e →
      e ∈ m ∧ e.1 ≤ a ∧ ∀ e' ∈ m, e'.1 ≤ a → e'.1 ≤ e.1 := by
  induction m with
  | nil => intro e h; simp [mapGreatestLE] at h
  | cons e0 m ih =>
    intro e h
    simp only [mapGreatestLE] at h
    by_cases h0 : e0.1 ≤ a
    · simp only [h0, if_true] at h
      cases hr : mapGreatestLE m a with
      | none =>
        rw [hr] at h
        simp only [Option.some.injEq] at h
        subst h
        refine ⟨List.mem_cons_self _ _, h0, ?_⟩
        intro e' he' ha'
        rcases List.mem_cons.mp he' with he' | he'
        · subst he'; exact le_refl _
        · exact absurd ha' (mapGreatestLE_none m a hr e' he')
      | some b =>
        rw [hr] at h
        obtain ⟨hb_mem, hb_le, hb_max⟩ := ih b hr
        by_cases hlt : b.1 < e0.1
        · simp only [hlt, if_true, Option.some.injEq] at h
          subst h
          refine ⟨List.mem_cons_self _ _, h0, ?_⟩
          intro e' he' ha'
          rcases List.mem_cons.mp he' with he' | he'
          · subst he'; exact le_refl _
          · exact le_trans (hb_max e' he' ha') (le_of_lt hlt)
        · simp only [hlt, if_false, Option.some.injEq] at h
          subst h
          refine ⟨List.mem_cons_of_mem _ hb_mem, hb_le, ?_⟩
          intro e' he' ha'
          rcases List.mem_cons.mp he' with he' | he'
          · subst he'; exact le_of_not_lt hlt
          · exact hb_max e' he' ha'
    · simp only [h0, if_false] at h
      obtain ⟨hb_mem, hb_le, hb_max⟩ := ih e h
      refine ⟨List.mem_cons_of_mem _ hb_mem, hb_le, ?_⟩
      intro e' he' ha'
      rcases List.mem_cons.mp he' with he' | he'
      · subst he'; exact absurd ha' h0
      · exact hb_max e' he' ha'

theorem mapGreatestLE_complete {β : Type} (m : List (Nat × β)) (a : Nat)
    (e : Nat × β) (hnd : (m.map (fun x => x.1)).Nodup)
    (hmem : e ∈ m) (hle : e.1 ≤ a)
    (hmax : ∀ e' ∈ m, e'.1 ≤ a → e'.1 ≤ e.1) :
    mapGreatestLE m a = some e := by
  induction m with
  | nil => simp at hmem
  | cons e0 m ih =>
    simp only [List.map_cons, List.nodup_cons] at hnd
    rcases List.mem_cons.mp hmem with he | he
    · subst he
      rw [mapGreatestLE]
      simp only [hle, if_true]
      cases hr : mapGreatestLE m a with
      | none => rfl
      | some b =>
        obtain ⟨hb_mem, hb_le, _⟩ := mapGreatestLE_spec m a b hr
        have hbe : b.1 ≤ e.1 := hmax b (List.mem_cons_of_mem _ hb_mem) hb_le
        have hne : b.1 ≠ e.1 := by
          intro hcontra
          exact hnd.1 (hcontra ▸ List.mem_map.mpr ⟨b, hb_mem, rfl⟩)
        simp [lt_of_le_of_ne hbe hne]
    · have hr : mapGreatestLE m a = some e :=
        ih hnd.2 he (fun e' he' ha' => hmax e' (List.mem_cons_of_mem _ he') ha')
      rw [mapGreatestLE, hr]
      by_cases h0 : e0.1 ≤ a
      · have h0e : e0.1 ≤ e.1 := hmax e0 (List.mem_cons_self _ _) h0
        have hne : e0.1 ≠ e.1 := by
          intro hcontra
          exact hnd.1 (hcontra ▸ List.mem_map.mpr ⟨e, he, rfl⟩)
        simp [h0, not_lt_of_le h0e]
      · simp [h0]

/-- **C2.** `find_symbol(address)` returns exactly the entry with the
greatest start key `≤ address`, and only under open-right containment
`address < start + size` (64-bit sum); and of two function symbols recorded
at the same address with sizes 4 < 8 (in either scan order) the size-8 one
is the entry kept in the index. -/
theorem find_symbol_spec (demangle : String → String) (m : SymbolMap)
    (a : Nat) (s : symbol_info_t) (load : Nat) (s1 s2 : ElfSym)
    (hnd : (m.map (fun e => e.1)).Nodup)
    (h1t : s1.st_type = STT_FUNC) (h1s : s1.st_shndx ≠ SHN_UNDEF)
    (h2t : s2.st_type = STT_FUNC) (h2s : s2.st_shndx ≠ SHN_UNDEF)
    (hv : s1.st_value = s2.st_value) (hsz : s1.st_size < s2.st_size) :
    (find_symbol demangle m a = some s ↔
      ∃ n, (s.m_value, n, s.m_size) ∈ m ∧ s.m_name = demangle n ∧
        s.m_value ≤ a ∧ a < (s.m_value + s.m_size) % 2 ^ 64 ∧
        ∀ e ∈ m, e.1 ≤ a → e.1 ≤ s.m_value) ∧
    load_symbol_map load [s1, s2] =
      [((load + s1.st_value) % 2 ^ 64, s2.st_name, s2.st_size)] ∧
    load_symbol_map load [s2, s1] =
      [((load + s2.st_value) % 2 ^ 64, s2.st_name, s2.st_size)] := by
  refine ⟨?_, ?_, ?_⟩
  · constructor
    · intro h
      rw [find_symbol] at h
      cases hg : mapGreatestLE m a with
      | none => rw [hg] at h; exact absurd h (by simp)
      | some e =>
        obtain ⟨v, n, sz⟩ := e
        rw [hg] at h
        dsimp only at h
        by_cases hin : a < (v + sz) % 2 ^ 64
        · rw [if_pos hin] at h
          simp only [Option.some.injEq] at h
          obtain ⟨hmem, hle, hmax⟩ := mapGreatestLE_spec m a (v, n, sz) hg
          subst h
          exact ⟨n, hmem, rfl, hle, hin, hmax⟩
        · rw [if_neg hin] at h
          simp at h
    · rintro ⟨n, hmem, hname, hle, hin, hmax⟩
      have hg : mapGreatestLE m a = some (s.m_value, n, s.m_size) :=
        mapGreatestLE_complete m a (s.m_value, n, s.m_size) hnd hmem hle hmax
      rw [find_symbol, hg]
      simp only [hin, if_true]
      congr 1
      cases s
      simp_all
  · simp [load_symbol_map, addSymbol, h1t, h1s, h2t, h2s, hv, symMapLookup,
      symMapReplace, hsz]
  · simp [load_symbol_map, addSymbol, h1t, h1s, h2t, h2s, hv, symMapLookup,
      symMapReplace, lt_asymm hsz]

/-- Witness for `find_symbol_spec`: the synthetic table
`{0x100 ↦ ("f", 0x10)}` queried at `0x105`, and the 4-byte/8-byte
same-address collision. -/
theorem find_symbol_spec_witness :
    (find_symbol id [(0x100, "f", 0x10)] 0x105 =
        some ⟨"f", 0x100, 0x10⟩ ↔
      ∃ n, ((0x100 : Nat), n, (0x10 : Nat)) ∈
            [((0x100 : Nat), "f", (0x10 : Nat))] ∧ "f" = id n ∧
        (0x100 : Nat) ≤ 0x105 ∧ (0x105 : Nat) < (0x100 + 0x10) % 2 ^ 64 ∧
        ∀ e ∈ [((0x100 : Nat), "f", (0x10 : Nat))], e.1 ≤ 0x105 →
          e.1 ≤ 0x100) ∧
    load_symbol_map 0 [⟨0x100, 4, "g", 2, 1⟩, ⟨0x100, 8, "f", 2, 1⟩] =
      [((0 + 0x100) % 2 ^ 64, "f", 8)] ∧
    load_symbol_map 0 [⟨0x100, 8, "f", 2, 1⟩, ⟨0x100, 4, "g", 2, 1⟩] =
      [((0 + 0x100) % 2 ^ 64, "f", 8)] :=
  find_symbol_spec id [(0x100, "f", 0x10)] 0x105 ⟨"f", 0x100, 0x10⟩ 0
    ⟨0x100, 4, "g", 2, 1⟩ ⟨0x100, 8, "f", 2, 1⟩ (by simp) (by rfl) (by simp [SHN_UNDEF])
    (by rfl) (by simp [SHN_UNDEF]) (by rfl) (by norm_num)

/-- **C10.** On a key collision the index keeps the first symbol seen unless
the new one's size is strictly larger: with equal sizes the first is kept,
and in general an existing entry is replaced exactly when the newly seen
size exceeds the stored size. -/
theorem load_symbol_map_collision (load : Nat) (s1 s2 s3 : ElfSym)
    (m : SymbolMap) (n0 : String) (sz0 : Nat)
    (h1t : s1.st_type = STT_FUNC) (h1s : s1.st_shndx ≠ SHN_UNDEF)
    (h2t : s2.st_type = STT_FUNC) (h2s : s2.st_shndx ≠ SHN_UNDEF)
    (h3t : s3.st_type = STT_FUNC) (h3s : s3.st_shndx ≠ SHN_UNDEF)
    (hv : s1.st_value = s2.st_value) (hsz : s1.st_size = s2.st_size)
    (hm : symMapLookup m ((load + s3.st_value) % 2 ^ 64) = some (n0, sz0)) :
    load_symbol_map load [s1, s2] =
      [((load + s1.st_value) % 2 ^ 64, s1.st_name, s1.st_size)] ∧
    addSymbol load m s3 =
      (if sz0 < s3.st_size then
        symMapReplace m ((load + s3.st_value) % 2 ^ 64)
          (s3.st_name, s3.st_size)
      else m) := by
  constructor
  · simp [load_symbol_map, addSymbol, h1t, h1s, h2t, h2s, hv, hsz,
      symMapLookup, symMapReplace]
  · rw [addSymbol, if_neg (by simp [h3t, h3s]), hm]

/-- Witness for `load_symbol_map_collision`: two equal-size symbols at one
address keep the first; a smaller new symbol does not replace a stored
entry. -/
theorem load_symbol_map_collision_witness :
    load_symbol_map 0 [⟨0x100, 4, "g", 2, 1⟩, ⟨0x100, 4, "h", 2, 1⟩] =
      [((0 + 0x100) % 2 ^ 64, "g", 4)] ∧
    addSymbol 0 [(0x100, "g", 4)] ⟨0x100, 3, "h", 2, 1⟩ =
      (if (4 : Nat) < 3 then
        symMapReplace [(0x100, "g", 4)] ((0 + 0x100) % 2 ^ 64) ("h", 3)
      else [(0x100, "g", 4)]) :=
  load_symbol_map_collision 0 ⟨0x100, 4, "g", 2, 1⟩ ⟨0x100, 4, "h", 2, 1⟩
    ⟨0x100, 3, "h", 2, 1⟩ [(0x100, "g", 4)] "g" 4 (by rfl) (by simp [SHN_UNDEF])
    (by rfl) (by simp [SHN_UNDEF]) (by rfl) (by simp [SHN_UNDEF]) (by rfl)
    (by rfl) (by norm_num [symMapLookup])

/-! ## Code-object acquisition (`code_object_t::open`)

`open` parses `m_uri` (`scheme://path[?|#tag=value[&tag=value...]]`),
materializes the designated bytes (from a file or from device memory) into
an anonymous temporary file, and parses the image's program headers to
compute the in-memory footprint; only after all of that succeeds is the
temporary file's descriptor stored in `m_fd` (`is_open`).

Strings are modelled as `List Char`.  The external world is explicit:
a `World` carries the temporary files created so far (a created descriptor
is its index), and an `OpenEnv` abstracts the file system, the device-memory
read, and the libelf entry points.  A `std::stoul` that throws is modelled
as `none`; the surrounding `catch (...)` then continues with the buffer
still empty, exactly as the source does.  A URI without a `"://"` delimiter
drives the source into out-of-range `size_t` arithmetic on `npos`; it is
modelled as a failed open (`parseUri = none`). -/

/-- Index of the first occurrence of `pat` in `s`, as `std::string::find`. -/
def findSubIdx (pat : List Char) : List Char → Option Nat
  | [] => if pat.isEmpty then some 0 else none
  | c :: rest =>
    if pat.isPrefixOf (c :: rest) then some 0
    else (findSubIdx pat rest).map (· + 1)

/-- `std::string::find_first_of (set, start)`. -/
def findFirstOfIdx (s : List Char) (set : List Char) (start : Nat) :
    Option Nat :=
  ((s.drop start).findIdx? (fun c => set.contains c)).map (· + start)

/-- `isxdigit` (C locale). -/
def isHexDigitC (c : Char) : Bool :=
  c.isDigit || (97 ≤ c.toNat && c.toNat ≤ 102) ||
    (65 ≤ c.toNat && c.toNat ≤ 70)

/-- The value of a hexadecimal digit. -/
def hexDigitVal (c : Char) : Nat :=
  if c.isDigit then c.toNat - 48
  else if 97 ≤ c.toNat && c.toNat ≤ 102 then c.toNat - 97 + 10
  else if 65 ≤ c.toNat && c.toNat ≤ 70 then c.toNat - 65 + 10
  else 0

/-- The %-decoding loop of `open`: a `%` followed by two hex digits becomes
the denoted byte, anything else is copied through. -/
def percentDecode : List Char → List Char
  | '%' :: a :: b :: rest =>
    if isHexDigitC a && isHexDigitC b then
      Char.ofNat (16 * hexDigitVal a + hexDigitVal b) :: percentDecode rest
    else '%' :: percentDecode (a :: b :: rest)
  | c :: rest => c :: percentDecode rest
  | [] => []

/-- `isspace` (C locale). -/
def isSpaceC (c : Char) : Bool :=
  c == ' ' || c == '\t' || c == '\n' || c == '\r' ||
    c.toNat == 11 || c.toNat == 12

/-- An octal digit. -/
def isOctDigitC (c : Char) : Bool := 48 ≤ c.toNat && c.toNat ≤ 55

/-- The value of a decimal digit. -/
def decDigitVal (c : Char) : Nat := c.toNat - 48

/-- Accumulate leading digits of the given base, stopping at the first
non-digit (as `strtoul` does). -/
def accumDigits (base : Nat) (isD : Char → Bool) (dv : Char → Nat) :
    List Char → Nat → Nat
  | [], acc => acc
  | c :: rest, acc =>
    if isD c then accumDigits base isD dv rest (base * acc + dv c) else acc

/-- Range check and sign application of `std::stoul` on a 64-bit
`unsigned long`: out-of-range throws (`none`), a `-` sign wraps. -/
def stoulRange (neg : Bool) (v : Nat) : Option Nat :=
  if v < 2 ^ 64 then some (if neg then (2 ^ 64 - v) % 2 ^ 64 else v)
  else none

/-- `std::stoul (s, nullptr, 0)` after whitespace/sign handling: base
auto-detection (`0x` hex, leading `0` octal, else decimal); no digit at all
throws `invalid_argument` (`none`); a bare `0x` without a hex digit consumes
just the `0`. -/
def stoulBody (neg : Bool) : List Char → Option Nat
  | '0' :: c :: rest =>
    if c == 'x' || c == 'X' then
      match rest with
      | d :: _ =>
        if isHexDigitC d then
          stoulRange neg (accumDigits 16 isHexDigitC hexDigitVal rest 0)
        else stoulRange neg 0
      | [] => stoulRange neg 0
    else stoulRange neg (accumDigits 8 isOctDigitC decDigitVal (c :: rest) 0)
  | ['0'] => stoulRange neg 0
  | c :: rest =>
    if c.isDigit then
      stoulRange neg (accumDigits 10 Char.isDigit decDigitVal (c :: rest) 0)
    else none
  | [] => none

/-- `std::stoul (s, nullptr, 0)`. -/
def stoul0 (s : List Char) : Option Nat :=
  match s.dropWhile isSpaceC with
  | '+' :: r => stoulBody false r
  | '-' :: r => stoulBody true r
  | r => stoulBody false r

/-- The tag-value table: an `std::unordered_map` populated with `emplace`
(first occurrence of a tag wins). -/
abbrev Params := List (List Char × List Char)

/-- Lookup in the tag-value table. -/
def paramsFind : Params → List Char → Option (List Char)
  | [], _ => none
  | (k', v) :: rest, k => if k' = k then some v else paramsFind rest k

/-- `std::unordered_map::emplace`: inserts only when the key is absent. -/
def paramsEmplace (ps : Params) (k v : List Char) : Params :=
  if (paramsFind ps k).isSome then ps else ps ++ [(k, v)]

/-- Split a token at its first `=`; a token without `=` yields `none` and
is skipped. -/
def splitFirstEq : List Char → Option (List Char × List Char)
  | [] => none
  | '=' :: r => some ([], r)
  | c :: r => (splitFirstEq r).map (fun p => (c :: p.1, p.2))

/-- Build the tag-value table from the `&`-separated tokens. -/
def buildParams (tokens : List (List Char)) : Params :=
  tokens.foldl
    (fun ps t =>
      match splitFirstEq t with
      | some (k, v) => paramsEmplace ps k v
      | none => ps)
    []

/-- The URI-parsing prefix of `open`: protocol (lower-cased), %-decoded
path, and the tag-value table of the query/fragment. -/
def parseUri (uri : List Char) : Option (List Char × List Char × Params) :=
  match findSubIdx ("://".toList) uri with
  | none => none
  | some i =>
    let protocol := (uri.take i).map Char.toLower
    let protocolEnd := i + 3
    match findFirstOfIdx uri ['#', '?'] protocolEnd with
    | some pathEnd =>
      let path := (uri.drop protocolEnd).take (pathEnd - protocolEnd)
      let query := uri.drop (pathEnd + 1)
      some (protocol, percentDecode path, buildParams (query.splitOn '&'))
    | none =>
      some (protocol, percentDecode (uri.drop protocolEnd), [])

/-- The program-header fields the footprint loop reads. -/
structure Phdr where
  p_type : Nat
  p_vaddr : Nat
  p_memsz : Nat
  deriving Repr, DecidableEq

/-- ELF loadable-segment type. -/
def PT_LOAD : Nat := 1

/-- The external collaborators `open` talks to: the file system (decoded
path ↦ bytes), `amd_dbgapi_read_memory` (offset, size ↦ bytes of that
length), and the libelf entry points on the materialized image
(`elf_begin` success, `elf_getphdrnum`, `gelf_getphdr`). -/
structure OpenEnv where
  fs : List Char → Option (List Nat)
  readMemory : Nat → Nat → Option (List Nat)
  elfBegin : List Nat → Bool
  elfPhdrnum : List Nat → Option Nat
  elfPhdr : List Nat → Nat → Option Phdr

/-- The mutable outside state: the anonymous temporary files created so
far.  A descriptor is an index into this list. -/
structure World where
  tmpFiles : List (List Nat)
  deriving Repr, DecidableEq

/-- The `code_object_t` fields `open` reads or writes. -/
structure CodeObject where
  m_load_address : Nat
  m_mem_size : Nat
  m_uri : List Char
  m_fd : Option Nat
  deriving Repr, DecidableEq

/-- Outcome of the `try` block of `open`: an early `return`, or fall
through with the bytes read so far (a caught exception falls through with
the buffer still empty). -/
inductive TryOut where
  | retrn
  | cont (buffer : List Nat)
  deriving Repr, DecidableEq

/-- `file.seekg (offset); buffer.resize (size); file.read (...)`: the bytes
from `offset`, at most `size` of them, zero-padded to `size` (a short read
leaves the zero-initialized tail of the resized buffer in place). -/
def fileBuffer (bytes : List Nat) (offset size : Nat) : List Nat :=
  (bytes.drop offset).take size ++
    List.replicate (size - ((bytes.drop offset).take size).length) 0

/-- The protocol dispatch of the `try` block, after `offset` and `size`
are known. -/
def protoDispatch (env : OpenEnv) (protocol decodedPath : List Char)
    (offset size : Nat) : TryOut :=
  if protocol = "file".toList then
    match env.fs decodedPath with
    | none => TryOut.retrn
    | some bytes =>
      if size = 0 then
        if bytes.length < offset then TryOut.retrn
        else TryOut.cont (fileBuffer bytes offset (bytes.length - offset))
      else TryOut.cont (fileBuffer bytes offset size)
  else if protocol = "memory".toList then
    if offset = 0 ∨ size = 0 then TryOut.retrn
    else
      match env.readMemory offset size with
      | none => TryOut.retrn
      | some bytes => TryOut.cont bytes
  else TryOut.retrn

/-- The whole `try` block: parse `offset` (default 0), then `size`
(an explicitly supplied size that parses to 0 triggers
`if (!(size = std::stoul (...))) return;`), then dispatch on the
protocol.  A throwing `std::stoul` is caught outside, falling through with
an empty buffer. -/
def tryBlock (env : OpenEnv) (protocol decodedPath : List Char)
    (params : Params) : TryOut :=
  match
    (match paramsFind params ("offset".toList) with
     | some v => stoul0 v
     | none => some 0) with
  | none => TryOut.cont []
  | some offset =>
    match paramsFind params ("size".toList) with
    | some v =>
      match stoul0 v with
      | none => TryOut.cont []
      | some 0 => TryOut.retrn
      | some (n + 1) => protoDispatch env protocol decodedPath offset (n + 1)
    | none => protoDispatch env protocol decodedPath offset 0

/-- The footprint loop over the program-header indices still to visit,
carrying `m_mem_size` in `acc`: a failing `gelf_getphdr` returns with the
partial accumulator (`false` = the function returned early, before `m_fd`
was stored). -/
def phdrLoopAux (env : OpenEnv) (buffer : List Nat) :
    List Nat → Nat → Nat × Bool
  | [], acc => (acc, true)
  | i :: is, acc =>
    match env.elfPhdr buffer i with
    | none => (acc, false)
    | some p =>
      phdrLoopAux env buffer is
        (if p.p_type = PT_LOAD then
          max acc ((p.p_vaddr + p.p_memsz) % 2 ^ 64)
        else acc)

/-- The `for (size_t i = 0; i < phnum; ++i)` footprint loop. -/
def phdrLoop (env : OpenEnv) (buffer : List Nat) (phnum : Nat)
    (acc : Nat) : Nat × Bool :=
  phdrLoopAux env buffer (List.range phnum) acc

/-- `open` from the point where the `try` block fell through with `buffer`:
create the temporary file (the fresh descriptor is `w.tmpFiles.length`),
then parse the image as an ELF container; only full success stores the
descriptor in `m_fd`. -/
def openAfterBuffer (env : OpenEnv) (co : CodeObject) (w : World)
    (buffer : List Nat) : CodeObject × World :=
  if env.elfBegin buffer then
    match env.elfPhdrnum buffer with
    | none => (co, ⟨w.tmpFiles ++ [buffer]⟩)
    | some phnum =>
      match phdrLoop env buffer phnum co.m_mem_size with
      | (msz, true) =>
        ({ co with
            m_mem_size := msz,
            m_fd := some w.tmpFiles.length }, ⟨w.tmpFiles ++ [buffer]⟩)
      | (msz, false) =>
        ({ co with m_mem_size := msz }, ⟨w.tmpFiles ++ [buffer]⟩)
  else (co, ⟨w.tmpFiles ++ [buffer]⟩)

/-- `code_object_t::open`. -/
def openCO (env : OpenEnv) (co : CodeObject) (w : World) :
    CodeObject × World :=
  match parseUri co.m_uri with
  | none => (co, w)
  | some (protocol, decodedPath, params) =>
    match tryBlock env protocol decodedPath params with
    | TryOut.retrn => (co, w)
    | TryOut.cont buffer => openAfterBuffer env co w buffer

/-! Concrete instances used to settle the `open` claims: a file system with
one four-byte file, libelf accepting any image with zero program headers
(`env3`), and the same world with a failing `elf_begin` (`env5`). -/

/-- Environment: `/tmp/a.co` holds 4 bytes; ELF parsing succeeds trivially
(no program headers). -/
def env3 : OpenEnv :=
  { fs := fun p => if p = "/tmp/a.co".toList then some [1, 2, 3, 4] else none,
    readMemory := fun _ _ => none,
    elfBegin := fun _ => true,
    elfPhdrnum := fun _ => some 0,
    elfPhdr := fun _ _ => none }

/-- The same environment with `elf_begin` failing on every image. -/
def env5 : OpenEnv := { env3 with elfBegin := fun _ => false }

/-- A code object whose URI carries an explicit `size=0`. -/
def co3 : CodeObject :=
  ⟨0, 0, "file:///tmp/a.co?offset=0&size=0".toList, none⟩

/-- The same code object without the `size` parameter. -/
def co4 : CodeObject := ⟨0, 0, "file:///tmp/a.co?offset=0".toList, none⟩

/-- **C3 (counterexample).** The claim says an explicit `size=0` behaves
like a missing size parameter and the object ends up open; in fact
`open` on `file:///tmp/a.co?offset=0&size=0` returns immediately — no
temporary file, object not open — while the same URI without `size`
does open the object. -/
theorem open_size_zero_counterexample :
    openCO env3 co3 ⟨[]⟩ = (co3, ⟨[]⟩) ∧
    (openCO env3 co3 ⟨[]⟩).1.m_fd = none ∧
    (openCO env3 co4 ⟨[]⟩).1.m_fd = some 0 ∧
    (openCO env3 co4 ⟨[]⟩).2.tmpFiles = [[1, 2, 3, 4]] := by
  refine ⟨rfl, rfl, rfl, rfl⟩

/-- **C3 (amended).** Whenever the URI's query carries a `size` tag whose
value parses to 0 (and the `offset` tag, if present, parses without
throwing), `open` returns immediately: no I/O happens and the object's
state is completely unchanged — only a *missing* size means
"read to end of file". -/
theorem open_explicit_size_zero (env : OpenEnv) (co : CodeObject) (w : World)
    (proto path : List Char) (params : Params) (v : List Char)
    (hp : parseUri co.m_uri = some (proto, path, params))
    (hoff : ∀ ov, paramsFind params ("offset".toList) = some ov →
      (stoul0 ov).isSome)
    (hsz : paramsFind params ("size".toList) = some v)
    (h0 : stoul0 v = some 0) :
    openCO env co w = (co, w) := by
  have htry : tryBlock env proto path params = TryOut.retrn := by
    cases hov : paramsFind params ("offset".toList) with
    | none => simp only [tryBlock, hov, hsz, h0]
    | some ov =>
      obtain ⟨n, hn⟩ := Option.isSome_iff_exists.mp (hoff ov hov)
      simp only [tryBlock, hov, hn, hsz, h0]
  rw [openCO, hp]
  dsimp only
  rw [htry]

/-- Witness for `open_explicit_size_zero` at the concrete URI
`file:///tmp/a.co?offset=0&size=0`. -/
theorem open_explicit_size_zero_witness :
    parseUri co3.m_uri =
      some ("file".toList, "/tmp/a.co".toList,
        [("offset".toList, "0".toList), ("size".toList, "0".toList)]) ∧
    openCO env3 co3 ⟨[]⟩ = (co3, ⟨[]⟩) :=
  ⟨rfl,
   open_explicit_size_zero env3 co3 ⟨[]⟩ ("file".toList) ("/tmp/a.co".toList)
     [("offset".toList, "0".toList), ("size".toList, "0".toList)]
     ("0".toList) rfl
     (fun ov hov => by
       rw [show paramsFind
           [("offset".toList, "0".toList), ("size".toList, "0".toList)]
           ("offset".toList) = some ("0".toList) from rfl] at hov
       injection hov with h2
       rw [← h2]
       rfl)
     rfl rfl⟩

theorem phdrLoopAux_acc (env : OpenEnv) (b : List Nat) :
    ∀ is acc, phdrLoopAux env b is acc =
      (max acc (phdrLoopAux env b is 0).1, (phdrLoopAux env b is 0).2) := by
  intro is
  induction is with
  | nil => intro acc; simp [phdrLoopAux]
  | cons i is ih =>
    intro acc
    simp only [phdrLoopAux]
    cases hp : env.elfPhdr b i with
    | none => simp
    | some p =>
      by_cases hl : p.p_type = PT_LOAD
      · simp only [hl, if_true]
        rw [ih (max acc ((p.p_vaddr + p.p_memsz) % 2 ^ 64)),
          ih (max 0 ((p.p_vaddr + p.p_memsz) % 2 ^ 64))]
        simp [Nat.max_assoc]
      · simp only [hl, if_false]
        exact ih acc

theorem phdrLoop_acc (env : OpenEnv) (b : List Nat) (phnum acc : Nat) :
    phdrLoop env b phnum acc =
      (max acc (phdrLoop env b phnum 0).1, (phdrLoop env b phnum 0).2) :=
  phdrLoopAux_acc env b (List.range phnum) acc

/-- **C4 (counterexample).** The claim says a second `open` after a first
success is a no-op with no additional I/O; in fact the second call
creates a second temporary file and re-points `m_fd` at it. -/
theorem open_idempotence_counterexample :
    (openCO env3 co4 ⟨[]⟩).1.m_fd = some 0 ∧
    (openCO env3 (openCO env3 co4 ⟨[]⟩).1
        (openCO env3 co4 ⟨[]⟩).2).2.tmpFiles =
      [[1, 2, 3, 4], [1, 2, 3, 4]] ∧
    (openCO env3 (openCO env3 co4 ⟨[]⟩).1
        (openCO env3 co4 ⟨[]⟩).2).1.m_fd = some 1 := by
  refine ⟨rfl, rfl, rfl⟩

/-- **C4 (amended).** `open` never checks `is_open`: after a successful
first call, a second call re-materializes the same bytes into a fresh
temporary file (additional I/O), replaces `m_fd` with the new descriptor
without releasing the old one, and recomputes the footprint — which, the
inputs being unchanged, keeps its value. -/
theorem open_reopen (env : OpenEnv) (co : CodeObject) (w : World)
    (proto path : List Char) (params : Params) (b : List Nat) (phnum : Nat)
    (hp : parseUri co.m_uri = some (proto, path, params))
    (ht : tryBlock env proto path params = TryOut.cont b)
    (he : env.elfBegin b = true)
    (hn : env.elfPhdrnum b = some phnum)
    (hl : (phdrLoop env b phnum co.m_mem_size).2 = true) :
    (openCO env co w).1.m_fd = some w.tmpFiles.length ∧
    (openCO env co w).2.tmpFiles = w.tmpFiles ++ [b] ∧
    (openCO env (openCO env co w).1 (openCO env co w).2).2.tmpFiles =
      w.tmpFiles ++ [b] ++ [b] ∧
    (openCO env (openCO env co w).1 (openCO env co w).2).1.m_fd =
      some (w.tmpFiles.length + 1) ∧
    (openCO env (openCO env co w).1 (openCO env co w).2).1.m_mem_size =
      (openCO env co w).1.m_mem_size := by
  have hP : phdrLoop env b phnum co.m_mem_size =
      ((phdrLoop env b phnum co.m_mem_size).1, true) := Prod.ext rfl hl
  have h1 : openCO env co w =
      ({ co with
          m_mem_size := (phdrLoop env b phnum co.m_mem_size).1,
          m_fd := some w.tmpFiles.length }, ⟨w.tmpFiles ++ [b]⟩) := by
    rw [openCO, hp]
    dsimp only
    rw [ht]
    dsimp only [openAfterBuffer]
    rw [he]
    simp only [eq_self_iff_true, if_true]
    rw [hn]
    dsimp only
    rw [hP]
  have hmax1 : (phdrLoop env b phnum co.m_mem_size).1 =
      max co.m_mem_size (phdrLoop env b phnum 0).1 := by
    rw [phdrLoop_acc env b phnum co.m_mem_size]
  have hok : (phdrLoop env b phnum 0).2 = true := by
    have h := phdrLoop_acc env b phnum co.m_mem_size
    rw [hP] at h
    exact (congrArg Prod.snd h).symm
  have hP2 : phdrLoop env b phnum (phdrLoop env b phnum co.m_mem_size).1 =
      ((phdrLoop env b phnum co.m_mem_size).1, true) := by
    rw [phdrLoop_acc env b phnum (phdrLoop env b phnum co.m_mem_size).1]
    rw [Prod.mk.injEq]
    constructor
    · rw [hmax1, Nat.max_assoc, Nat.max_self]
    · exact hok
  have h2 : openCO env ({ co with
        m_mem_size := (phdrLoop env b phnum co.m_mem_size).1,
        m_fd := some w.tmpFiles.length }) ⟨w.tmpFiles ++ [b]⟩ =
      ({ co with
          m_mem_size := (phdrLoop env b phnum co.m_mem_size).1,
          m_fd := some (w.tmpFiles ++ [b]).length },
        ⟨(w.tmpFiles ++ [b]) ++ [b]⟩) := by
    rw [openCO]
    dsimp only
    rw [hp]
    dsimp only
    rw [ht]
    dsimp only [openAfterBuffer]
    rw [he]
    simp only [eq_self_iff_true, if_true]
    rw [hn]
    dsimp only
    rw [hP2]
  rw [h1]
  dsimp only
  rw [h2]
  refine ⟨rfl, rfl, rfl, by simp, rfl⟩

/-- Witness for `open_reopen` at the concrete file URI without a size
parameter. -/
theorem open_reopen_witness :
    (openCO env3 co4 ⟨[]⟩).1.m_fd = some ([] : List (List Nat)).length ∧
    (openCO env3 co4 ⟨[]⟩).2.tmpFiles = [] ++ [[1, 2, 3, 4]] ∧
    (openCO env3 (openCO env3 co4 ⟨[]⟩).1
        (openCO env3 co4 ⟨[]⟩).2).2.tmpFiles =
      [] ++ [[1, 2, 3, 4]] ++ [[1, 2, 3, 4]] ∧
    (openCO env3 (openCO env3 co4 ⟨[]⟩).1
        (openCO env3 co4 ⟨[]⟩).2).1.m_fd =
      some (([] : List (List Nat)).length + 1) ∧
    (openCO env3 (openCO env3 co4 ⟨[]⟩).1
        (openCO env3 co4 ⟨[]⟩).2).1.m_mem_size =
      (openCO env3 co4 ⟨[]⟩).1.m_mem_size :=
  open_reopen env3 co4 ⟨[]⟩ ("file".toList) ("/tmp/a.co".toList)
    [("offset".toList, "0".toList)] [1, 2, 3, 4] 0 rfl rfl rfl rfl rfl

/-- **C5 (counterexample).** With bytes successfully materialized but
`elf_begin` failing, the claim says the object still ends up open with the
resource retained; in fact `open` returns before `m_fd.emplace (fd)`: the
object is left un-opened and the fresh temporary file is abandoned. -/
theorem open_elf_failure_counterexample :
    (openCO env5 co4 ⟨[]⟩).1 = co4 ∧
    (openCO env5 co4 ⟨[]⟩).1.m_fd = none ∧
    (openCO env5 co4 ⟨[]⟩).2.tmpFiles = [[1, 2, 3, 4]] := by
  refine ⟨rfl, rfl, rfl⟩

/-- **C5 (amended).** When the `try` block materializes `buffer` but ELF
parsing fails — `elf_begin`, `elf_getphdrnum`, or a `gelf_getphdr` mid-loop
— `open` leaves `m_fd` unchanged (the object does not become open; the
temporary file is created but abandoned), and for the first two failure
kinds the whole object, its zero footprint included, is untouched. -/
theorem open_elf_parse_failure (env : OpenEnv) (co : CodeObject) (w : World)
    (proto path : List Char) (params : Params) (b : List Nat)
    (hp : parseUri co.m_uri = some (proto, path, params))
    (ht : tryBlock env proto path params = TryOut.cont b)
    (hfail : env.elfBegin b = false ∨ env.elfPhdrnum b = none ∨
      (∃ phnum, env.elfPhdrnum b = some phnum ∧
        (phdrLoop env b phnum co.m_mem_size).2 = false)) :
    (openCO env co w).1.m_fd = co.m_fd ∧
    (openCO env co w).2.tmpFiles = w.tmpFiles ++ [b] ∧
    ((env.elfBegin b = false ∨ env.elfPhdrnum b = none) →
      (openCO env co w).1 = co) := by
  have hopen : openCO env co w = openAfterBuffer env co w b := by
    rw [openCO, hp]
    dsimp only
    rw [ht]
  rcases hfail with he | hn | ⟨phnum, hn, hl⟩
  · rw [hopen, openAfterBuffer, he]
    exact ⟨rfl, rfl, fun _ => rfl⟩
  · rw [hopen, openAfterBuffer]
    cases hb : env.elfBegin b
    · exact ⟨rfl, rfl, fun _ => rfl⟩
    · simp only [eq_self_iff_true, if_true]
      rw [hn]
      exact ⟨rfl, rfl, fun _ => rfl⟩
  · have hP : phdrLoop env b phnum co.m_mem_size =
        ((phdrLoop env b phnum co.m_mem_size).1, false) := Prod.ext rfl hl
    rw [hopen, openAfterBuffer]
    cases hb : env.elfBegin b
    · exact ⟨rfl, rfl, fun _ => rfl⟩
    · simp only [eq_self_iff_true, if_true]
      rw [hn]
      dsimp only
      rw [hP]
      refine ⟨rfl, rfl, ?_⟩
      rintro (hc | hc)
      · simp at hc
      · simp at hc

/-- Witness for `open_elf_parse_failure` with `elf_begin` failing on the
materialized four-byte image. -/
theorem open_elf_parse_failure_witness :
    (openCO env5 co4 ⟨[]⟩).1.m_fd = co4.m_fd ∧
    (openCO env5 co4 ⟨[]⟩).2.tmpFiles = [] ++ [[1, 2, 3, 4]] ∧
    ((env5.elfBegin [1, 2, 3, 4] = false ∨
        env5.elfPhdrnum [1, 2, 3, 4] = none) →
      (openCO env5 co4 ⟨[]⟩).1 = co4) :=
  open_elf_parse_failure env5 co4 ⟨[]⟩ ("file".toList) ("/tmp/a.co".toList)
    [("offset".toList, "0".toList)] [1, 2, 3, 4] rfl rfl (Or.inl rfl)

/-! ## Debug-info index and disassembly window
(`code_object_t::load_debug_info` / `code_object_t::disassemble`)

`load_debug_info` returns immediately when both optional maps are already
built; when `dwarf_begin` fails (in particular when the image carries no
debug information at all) it returns **without emplacing either map**, and
only otherwise emplaces both (empty) and populates them from the
compilation units.  `disassemble` then computes its context window through
`m_line_number_map->upper_bound (pc)` and
`m_compilation_unit_low_high_pc_map->upper_bound (pc)` — `operator->` on a
`std::optional` that was never emplaced, which is undefined behaviour; the
window computation is therefore modelled as `Except`, with `.error ()`
marking exactly that dereference of an absent map.

The libdw iteration is abstracted as an optional list of compilation units
(`none` = `dwarf_begin` failed): per unit, optional low/high pc (present
when `dwarf_lowpc`/`dwarf_highpc` succeed), and an optional line list
(`none` = `dwarf_getsrclines` failed), each line carrying the address
(0 when `dwarf_lineaddr` failed), source file, and line number
(0 when `dwarf_lineno` failed). -/

/-- One row of a compilation unit's line table, after the
`dwarf_lineaddr`/`dwarf_linesrc`/`dwarf_lineno` calls. -/
structure LineEntry where
  addr : Nat
  file : String
  line : Nat
  deriving Repr, DecidableEq

/-- One compilation unit as the loop observes it. -/
structure DwarfCU where
  lowpc : Option Nat
  highpc : Option Nat
  srclines : Option (List LineEntry)
  deriving Repr, DecidableEq

/-- `m_line_number_map`: address ↦ (file, line). -/
abbrev LineMap := List (Nat × String × Nat)

/-- `m_compilation_unit_low_high_pc_map`: low pc ↦ high pc. -/
abbrev CUMap := List (Nat × Nat)

/-- The two lazily built optional maps. -/
structure DebugMaps where
  m_line_number_map : Option LineMap
  m_compilation_unit_low_high_pc_map : Option CUMap
  deriving Repr, DecidableEq

/-- `std::map::emplace` (no overwrite) on the line map. -/
def lineMapEmplace (m : LineMap) (k : Nat) (v : String × Nat) : LineMap :=
  if (m.map (fun e => e.1)).contains k then m else m ++ [(k, v.1, v.2)]

/-- `std::map::emplace` (no overwrite) on the compilation-unit map. -/
def cuMapEmplace (m : CUMap) (k hi : Nat) : CUMap :=
  if (m.map (fun e => e.1)).contains k then m else m ++ [(k, hi)]

/-- The loop body of `load_debug_info` for one compilation unit: record the
unit's interval when both `dwarf_lowpc` and `dwarf_highpc` succeed, then
record each line entry that has both a non-zero address and a non-zero line
number. -/
def processCU (load : Nat) (st : LineMap × CUMap) (cu : DwarfCU) :
    LineMap × CUMap :=
  let cm :=
    match cu.lowpc, cu.highpc with
    | some lo, some hi =>
      cuMapEmplace st.2 ((load + lo) % 2 ^ 64) ((load + hi) % 2 ^ 64)
    | _, _ => st.2
  match cu.srclines with
  | none => (st.1, cm)
  | some lines =>
    (lines.foldl
      (fun lm e =>
        if e.addr ≠ 0 ∧ e.line ≠ 0 then
          lineMapEmplace lm ((load + e.addr) % 2 ^ 64) (e.file, e.line)
        else lm)
      st.1, cm)

/-- `code_object_t::load_debug_info`: no-op when both maps are built;
`dwarf_begin` failure (`dwarf = none`) leaves both maps **unbuilt**;
otherwise both maps are emplaced and populated. -/
def load_debug_info (dwarf : Option (List DwarfCU)) (load : Nat)
    (st : DebugMaps) : DebugMaps :=
  if st.m_line_number_map.isSome ∧
      st.m_compilation_unit_low_high_pc_map.isSome then st
  else
    match dwarf with
    | none => st
    | some cus =>
      let r := cus.foldl (processCU load) ([], [])
      ⟨some r.1, some r.2⟩

/-- The fixed context size of `disassemble`. -/
def context_byte_size : Nat := 32

/-- Insertion into a descending list. -/
def insertDescNat (x : Nat) : List Nat → List Nat
  | [] => [x]
  | y :: ys => if x ≥ y then x :: y :: ys else y :: insertDescNat x ys

/-- Sort descending: the iteration order of
`prev (upper_bound pc), prev ..., begin` over an ordered map's keys `≤ pc`. -/
def sortDescNat : List Nat → List Nat
  | [] => []
  | x :: xs => insertDescNat x (sortDescNat xs)

/-- The start-of-window search of `disassemble`: walk backwards from the
greatest line-map key `≤ pc` until one at least `context_byte_size` bytes
before `pc` is found (or `begin` is reached); with no key `≤ pc` at all,
start exactly at `pc`. -/
def startPCSelect (lm : LineMap) (pc : Nat) : Nat :=
  let below := sortDescNat ((lm.map (fun e => e.1)).filter (fun k => k ≤ pc))
  if below.isEmpty then pc
  else
    match below.find? (fun k => context_byte_size ≤ pc - k) with
    | some k => k
    | none => below.getLast?.getD pc

/-- The window computation of `disassemble`: start from the line-map walk,
end at `pc + context_byte_size` (a `uint64` sum, hence mod `2 ^ 64`), then
clamp both to the candidate compilation unit's `[low, high)` when `pc` lies
inside that candidate — the unit with the greatest low `≤ pc`.
Dereferencing a never-built map is the `.error ()` outcome (undefined
behaviour in the source). -/
def windowSelect (st : DebugMaps) (pc : Nat) : Except Unit (Nat × Nat) :=
  match st.m_line_number_map, st.m_compilation_unit_low_high_pc_map with
  | some lm, some cm =>
    let s0 := startPCSelect lm pc
    let e0 := (pc + context_byte_size) % 2 ^ 64
    match mapGreatestLE cm pc with
    | some (lo, hi) =>
      if pc < hi then Except.ok (max s0 lo, min e0 hi)
      else Except.ok (s0, e0)
    | none => Except.ok (s0, e0)
  | _, _ => Except.error ()

/-- **C6.** The claim says absence of line information is treated as
"no data" with the window starting at `target_address`, never a crash.
The code honours that only when debug-info construction ran and yielded
nothing (empty maps): when no debug information is present at all
(`dwarf_begin` fails), `load_debug_info` leaves both optionals unbuilt and
`disassemble` dereferences the absent map — the crash condition the claim
rules out. -/
theorem disassemble_absent_debug_info :
    load_debug_info none 0 ⟨none, none⟩ = ⟨none, none⟩ ∧
    windowSelect ⟨none, none⟩ 0x1000 = Except.error () ∧
    load_debug_info (some []) 0 ⟨none, none⟩ = ⟨some [], some []⟩ ∧
    windowSelect ⟨some [], some []⟩ 0x1000 =
      Except.ok (0x1000, 0x1000 + context_byte_size) :=
  ⟨rfl, rfl, rfl, rfl⟩

/-- **C7 (counterexample).** The claim quantifies over *every* known
compilation unit containing `target_address`, but the code clamps only
against the unit with the greatest low `≤ pc`, and only when `pc < ` that
unit's high.  With the recorded intervals `[0x1000, 0x1160)` and
`[0x1100, 0x1120)` and `pc = 0x1150`, `pc` lies inside the known unit
`[0x1000, 0x1160)`, yet the candidate is `[0x1100, 0x1120)`, which does not
contain `pc`: no clamp happens and the emitted window ends at `0x1170`,
past the containing unit's bound `0x1160`. -/
theorem disassemble_cu_clamp_counterexample :
    ((0x1000, 0x1160) ∈ ([(0x1000, 0x1160), (0x1100, 0x1120)] : CUMap)) ∧
    (0x1000 : Nat) ≤ 0x1150 ∧ (0x1150 : Nat) < 0x1160 ∧
    windowSelect ⟨some [], some [(0x1000, 0x1160), (0x1100, 0x1120)]⟩
        0x1150 = Except.ok (0x1150, 0x1170) ∧
    ¬((0x1170 : Nat) ≤ 0x1160) :=
  ⟨by simp, by norm_num, by norm_num, rfl, by norm_num⟩

/-- **C7 (amended).** When the recorded compilation-unit intervals are
well-formed and pairwise disjoint and `pc` lies in one of them, both window
ends are clamped to that interval — the end being the `uint64` sum
`(pc + 32) mod 2 ^ 64` — so the emitted window never crosses that unit's
bounds even when the default 32-byte window would; with overlapping
recorded intervals the code clamps only against the greatest-low candidate
and the window may cross a containing unit's boundary. -/
theorem disassemble_cu_clamp (lm : LineMap) (cm : CUMap) (pc lo hi : Nat)
    (hnd : (cm.map (fun e => e.1)).Nodup)
    (hwf : ∀ e ∈ cm, e.1 ≤ e.2)
    (hdisj : ∀ e ∈ cm, ∀ e' ∈ cm, e.1 ≠ e'.1 → e.2 ≤ e'.1 ∨ e'.2 ≤ e.1)
    (hmem : (lo, hi) ∈ cm) (hlo : lo ≤ pc) (hhi : pc < hi) :
    windowSelect ⟨some lm, some cm⟩ pc =
      Except.ok (max (startPCSelect lm pc) lo,
        min ((pc + context_byte_size) % 2 ^ 64) hi) ∧
    lo ≤ max (startPCSelect lm pc) lo ∧
    min ((pc + context_byte_size) % 2 ^ 64) hi ≤ hi := by
  have hmax : ∀ e' ∈ cm, e'.1 ≤ pc → e'.1 ≤ lo := by
    intro e' he' hle
    by_cases heq : e'.1 = lo
    · exact le_of_eq heq
    · rcases hdisj (lo, hi) hmem e' he' (fun hc => heq (hc.symm)) with hd | hd
      · exact absurd (lt_of_lt_of_le hhi (le_trans hd hle)) (lt_irrefl pc)
      · exact le_trans (hwf e' he') hd
  have hg : mapGreatestLE cm pc = some (lo, hi) :=
    mapGreatestLE_complete cm pc (lo, hi) hnd hmem hlo hmax
  refine ⟨?_, le_max_right _ _, min_le_right _ _⟩
  rw [windowSelect]
  dsimp only
  rw [hg]
  dsimp only
  rw [if_pos hhi]

/-- Witness for `disassemble_cu_clamp`: a single unit `[0x1000, 0x1010)`,
`pc = 0x1008`, no line entries — the default end `0x1028` is clamped to
`0x1010`. -/
theorem disassemble_cu_clamp_witness :
    windowSelect ⟨some [], some [(0x1000, 0x1010)]⟩ 0x1008 =
      Except.ok (max (startPCSelect [] 0x1008) 0x1000,
        min ((0x1008 + context_byte_size) % 2 ^ 64) 0x1010) ∧
    0x1000 ≤ max (startPCSelect [] 0x1008) 0x1000 ∧
    min ((0x1008 + context_byte_size) % 2 ^ 64) 0x1010 ≤ 0x1010 :=
  disassemble_cu_clamp [] [(0x1000, 0x1010)] 0x1008 0x1000 0x1010
    (by simp) (by simp) (by simp) (by simp) (by norm_num) (by norm_num)

end RocrDebugAgent
